import Mathlib

/-!
Shallow embedding of `src/main.rs` of the cc-emitter repository.

The program parses a data string with the regex `([0-9]+):([0-9]+)`,
converts each captured pair of digit groups to bytes, and sends
3-byte MIDI Control Change messages on one or all sixteen channels to
every enumerated MIDI output port (optionally filtered by name).

Strings are modelled as `List Char`, machine integers as `Nat`/`Int`
(Rust's `isize` is taken as 64-bit, as on the platforms this program
targets). Panics are modelled as `Except.error`; the platform MIDI
library is modelled by explicit port descriptors and send oracles.
-/

namespace CCEmitter

/-- `const OUTPUT_PORT_NAME` from main.rs. -/
def OUTPUT_PORT_NAME : String := "@selenologist CC emitter"

/-- `const OUTPUT_CONNECTION_NAME` from main.rs. -/
def OUTPUT_CONNECTION_NAME : String := "@selenologist CC emitter connection"

/-- `const CONTROL_CHANGE_PREFIX : u8 = 0xB0` from main.rs. -/
def CONTROL_CHANGE_PREFIX : Nat := 0xB0

/-- The `Opts` argument structure from main.rs (structopt). `channel` is an
    Option of a `u8`, so theorems about it carry a `≤ 255` bound. -/
structure Opts where
  port_filter : Option (List Char)
  channel : Option Nat
  verbose : Bool
  data : List Char

/-! ## The CC regex `([0-9]+):([0-9]+)` and `captures_iter`

`digitRun l` splits `l` into its longest all-digit prefix (a `[0-9]+`
group) and the remaining suffix. `scanCC` models
`cc_regex.captures_iter`: at each position it attempts a leftmost match
of digits-colon-digits (both groups greedy, which for this pattern
coincides with backtracking semantics since a digit can never match the
`:` position), advancing one character on failure and resuming after
the match on success, exactly as the regex engine does. -/

def digitRun : List Char → List Char × List Char
  | [] => ([], [])
  | c :: rest =>
    if c.isDigit then
      let p := digitRun rest
      (c :: p.1, p.2)
    else ([], c :: rest)

theorem digitRun_snd_length (l : List Char) : (digitRun l).2.length ≤ l.length := by
  induction l with
  | nil => simp [digitRun]
  | cons c rest ih =>
    by_cases h : c.isDigit
    · simp only [digitRun, h, if_pos]
      exact Nat.le_succ_of_le ih
    · simp [digitRun, h]

def scanCC : List Char → List (List Char × List Char)
  | [] => []
  | c :: rest =>
    if c.isDigit then
      match h1 : (digitRun (c :: rest)).2 with
      | ':' :: r2 =>
        if (digitRun r2).1.isEmpty then scanCC rest
        else ((digitRun (c :: rest)).1, (digitRun r2).1) :: scanCC (digitRun r2).2
      | _ => scanCC rest
    else scanCC rest
termination_by l => l.length
decreasing_by
  · simp
  · have hr2 : (digitRun r2).2.length ≤ r2.length := digitRun_snd_length r2
    have hr1 : (digitRun (c :: rest)).2.length ≤ (c :: rest).length :=
      digitRun_snd_length (c :: rest)
    rw [h1] at hr1
    simp only [List.length_cons] at hr1 ⊢
    omega
  · simp
  · simp

/-! ## `str_to_u8` and the data parse -/

/-- Value of a digit string, most significant digit first. -/
def digitsToNat (l : List Char) : Nat :=
  l.foldl (fun acc c => 10 * acc + (c.toNat - 48)) 0

/-- Helper for `parseIsize`: parse a (sign-stripped) digit group into an
    `Int`, failing on empty/non-digit input or 64-bit signed overflow. -/
def parseDigitsInt (sign : Int) (ds : List Char) : Option Int :=
  if ds.isEmpty then none
  else if ds.all Char.isDigit then
    let v : Int := sign * (digitsToNat ds : Int)
    if -(2 ^ 63) ≤ v ∧ v ≤ 2 ^ 63 - 1 then some v else none
  else none

/-- Rust's `s.parse::<isize>()` (64-bit): optional sign, then digits;
    fails on empty input, stray characters, or overflow. -/
def parseIsize (l : List Char) : Option Int :=
  match l with
  | [] => none
  | c :: rest =>
    if c = '+' then parseDigitsInt 1 rest
    else if c = '-' then parseDigitsInt (-1) rest
    else parseDigitsInt 1 (c :: rest)

/-- The `str_to_u8` closure in main.rs: parse as `isize` (panic on
    failure), panic if outside `[0, 255]`, otherwise the value as `u8`. -/
def str_to_u8 (s : List Char) : Except String Nat :=
  match parseIsize s with
  | none => Except.error ("Data value " ++ String.mk s ++ " could not be parsed.")
  | some i =>
    if i < 0 ∨ 255 < i then
      Except.error ("Data value " ++ toString i ++ " is out of range.")
    else Except.ok i.toNat

/-- One iteration of the `.map` over captures: convert the two capture
    groups (cc first, then value) with `str_to_u8`. -/
def parsePair (p : List Char × List Char) : Except String (Nat × Nat) := do
  let cc ← str_to_u8 p.1
  let value ← str_to_u8 p.2
  pure (cc, value)

/-- The `let data : Vec<(u8, u8)> = ...` computation in main.rs: run the
    regex over the data string and convert every capture pair, aborting
    at the first bad token. -/
def parseData (s : List Char) : Except String (List (Nat × Nat)) :=
  (scanCC s).mapM parsePair

/-! ## Message construction and the channel loops -/

/-- The 3-byte message `[CONTROL_CHANGE_PREFIX | channel, cc, value]`
    built in `do_channel`. -/
def ccMessage (channel cc value : Nat) : List Nat :=
  [Nat.lor CONTROL_CHANGE_PREFIX channel, cc, value]

/-- The messages `do_channel` sends for one channel: one per parsed
    pair, in parse order. -/
def do_channel (pairs : List (Nat × Nat)) (channel : Nat) : List (List Nat) :=
  pairs.map fun p => ccMessage channel p.1 p.2

/-- The channel `match` inside `do_conn`: `0 => 0`, `1..=16 => n - 1`,
    otherwise panic. -/
def selectChannel (specified_channel : Nat) : Except String Nat :=
  if specified_channel = 0 then Except.ok 0
  else if specified_channel ≤ 16 then Except.ok (specified_channel - 1)
  else Except.error ("Channel " ++ toString specified_channel ++ " exceeds maximum of 16")

/-- The `do_conn` closure: on a specific channel argument, convert it and
    run `do_channel` once; otherwise run `do_channel` for channels
    `0..16` in ascending order. The result is the list of messages sent
    over this connection, or the panic message. -/
def do_conn (channelArg : Option Nat) (pairs : List (Nat × Nat)) :
    Except String (List (List Nat)) :=
  match channelArg with
  | some specified_channel => (selectChannel specified_channel).map (do_channel pairs)
  | none => Except.ok ((List.range 16).map (do_channel pairs)).flatten

/-- `do_channel` with an explicit send transport: `send i msg` is the
    result of `conn.send` for the `i`-th pair. Returns the messages
    attempted (the code attempts every pair: a failed send is caught by
    `unwrap_or_else` and only logged) together with the error log. -/
def do_channel_sends (send : Nat → List Nat → Except String Unit) (channel : Nat) :
    List (Nat × Nat) → Nat → List (List Nat) × List String
  | [], _ => ([], [])
  | p :: rest, i =>
    match send i (ccMessage channel p.1 p.2) with
    | Except.ok _ =>
      (ccMessage channel p.1 p.2 :: (do_channel_sends send channel rest (i + 1)).1,
       (do_channel_sends send channel rest (i + 1)).2)
    | Except.error e =>
      (ccMessage channel p.1 p.2 :: (do_channel_sends send channel rest (i + 1)).1,
       ("Failed to send CC#" ++ toString p.1 ++ " value " ++ toString p.2 ++
        " on ch#" ++ toString (channel + 1) ++ ": " ++ e) ::
         (do_channel_sends send channel rest (i + 1)).2)

/-! ## The port loop in `main` -/

/-- Rust's `str::contains`: case-sensitive substring test.
    `hasSubstr pat hay` holds when `pat` occurs contiguously in `hay`. -/
def hasSubstr (pat : List Char) : List Char → Bool
  | [] => pat.isEmpty
  | c :: t => pat.isPrefixOf (c :: t) || hasSubstr pat t

/-- A platform MIDI output port as main.rs can observe it: `name` is the
    result of `output.port_name` (`none` models failure), `connectOk`
    tells whether `connect` succeeds for this port. -/
structure Port where
  name : Option (List Char)
  connectOk : Bool

/-- What one iteration of the port loop did with a port. Only a `sent`
    outcome transmits messages. -/
inductive PortOutcome
  | nameFailed
  | filtered
  | connectFailed
  | sent (msgs : List (List Nat))
deriving DecidableEq

/-- One iteration of `for port in 0..output.port_count()`: resolve the
    name (skip on failure), apply the optional substring filter, then
    connect; on connect success run `do_conn`, whose panic aborts the
    process (`Except.error`). -/
def processPort (opts : Opts) (pairs : List (Nat × Nat)) (p : Port) :
    Except String PortOutcome :=
  match p.name with
  | none => Except.ok PortOutcome.nameFailed
  | some name =>
    match opts.port_filter with
    | some filter =>
      if hasSubstr filter name then
        if p.connectOk then (do_conn opts.channel pairs).map PortOutcome.sent
        else Except.ok PortOutcome.connectFailed
      else Except.ok PortOutcome.filtered
    | none =>
      if p.connectOk then (do_conn opts.channel pairs).map PortOutcome.sent
      else Except.ok PortOutcome.connectFailed

/-- Whether a port reaches a successful connection (name resolves,
    passes the filter, connect succeeds), i.e. whether `do_conn` runs. -/
def reachesConn (opts : Opts) (p : Port) : Bool :=
  match p.name with
  | none => false
  | some name =>
    (match opts.port_filter with
     | some filter => hasSubstr filter name
     | none => true) && p.connectOk

/-- The whole port loop: outcomes of the iterations that completed, and
    the panic message if an iteration aborted the process. -/
def runPorts (opts : Opts) (pairs : List (Nat × Nat)) :
    List Port → List PortOutcome × Option String
  | [] => ([], none)
  | p :: rest =>
    match processPort opts pairs p with
    | Except.error e => ([], some e)
    | Except.ok o =>
      (o :: (runPorts opts pairs rest).1, (runPorts opts pairs rest).2)

/-- `main`: parse the data string (panic aborts before any port is
    touched), then run the port loop. -/
def runProgram (opts : Opts) (ports : List Port) : List PortOutcome × Option String :=
  match parseData opts.data with
  | Except.error e => ([], some e)
  | Except.ok pairs => runPorts opts pairs ports

/-! ## Lemmas about `digitRun` and `scanCC` -/

theorem digitRun_fst_all (l : List Char) : (digitRun l).1.all Char.isDigit = true := by
  induction l with
  | nil => simp [digitRun]
  | cons c rest ih =>
    by_cases h : c.isDigit
    · simp [digitRun, h, ih]
    · simp [digitRun, h]

theorem digitRun_append_eq (l : List Char) : (digitRun l).1 ++ (digitRun l).2 = l := by
  induction l with
  | nil => simp [digitRun]
  | cons c rest ih =>
    by_cases h : c.isDigit
    · simp [digitRun, h, ih]
    · simp [digitRun, h]

/-- True when the list does not start with a digit, i.e. a `[0-9]+` group
    ending right before it is maximal. -/
def headNotDigit : List Char → Bool
  | [] => true
  | c :: _ => !c.isDigit

theorem digitRun_append (l r : List Char) (hl : l.all Char.isDigit = true)
    (hr : headNotDigit r = true) : digitRun (l ++ r) = (l, r) := by
  induction l with
  | nil =>
    cases r with
    | nil => simp [digitRun]
    | cons c t =>
      simp only [headNotDigit, Bool.not_eq_true'] at hr
      simp [digitRun, hr]
  | cons c t ih =>
    simp only [List.all_cons, Bool.and_eq_true] at hl
    simp [digitRun, hl.1, ih hl.2]

theorem mem_of_digitRun_snd {a : Char} {l : List Char} (h : a ∈ (digitRun l).2) : a ∈ l := by
  rw [← digitRun_append_eq l]
  exact List.mem_append_right _ h

theorem scanCC_skip_one (c : Char) (t : List Char) (h : ¬ c.isDigit = true) :
    scanCC (c :: t) = scanCC t := by
  rw [scanCC]
  simp [h]

theorem scanCC_skip_sep (s rest : List Char) (h : s.all (fun c => !c.isDigit) = true) :
    scanCC (s ++ rest) = scanCC rest := by
  induction s with
  | nil => rfl
  | cons c t ih =>
    simp only [List.all_cons, Bool.and_eq_true, Bool.not_eq_true'] at h
    rw [List.cons_append, scanCC_skip_one c _ (by simp [h.1])]
    exact ih (by simpa using h.2)

theorem scanCC_match (d1 d2 rest : List Char) (h1 : d1 ≠ [])
    (h2 : d1.all Char.isDigit = true) (h3 : d2 ≠ [])
    (h4 : d2.all Char.isDigit = true) (h5 : headNotDigit rest = true) :
    scanCC (d1 ++ ':' :: (d2 ++ rest)) = (d1, d2) :: scanCC rest := by
  cases d1 with
  | nil => exact absurd rfl h1
  | cons a t =>
    have ha : a.isDigit = true := by
      simp only [List.all_cons, Bool.and_eq_true] at h2
      exact h2.1
    have hdr : digitRun ((a :: t) ++ ':' :: (d2 ++ rest)) = (a :: t, ':' :: (d2 ++ rest)) :=
      digitRun_append _ _ h2 (by simp [headNotDigit])
    have hdr2 : digitRun (d2 ++ rest) = (d2, rest) := digitRun_append _ _ h4 h5
    rw [scanCC.eq_def]
    simp only [List.cons_append] at hdr ⊢
    simp only [ha, if_true]
    split
    · rename_i r2 heq
      rw [hdr] at heq
      have hr2 : r2 = d2 ++ rest := by
        have := heq
        simp at this
        exact this.symm
      subst hr2
      rw [hdr2]
      simp [hdr, h3, List.isEmpty_iff]
    · rename_i hne
      exact absurd (by rw [hdr]) (hne _)

theorem scanCC_cons_colon (c : Char) (rest r2 : List Char) (hd : c.isDigit = true)
    (heq : (digitRun (c :: rest)).2 = ':' :: r2) (hne : (digitRun r2).1.isEmpty = false) :
    scanCC (c :: rest) = ((digitRun (c :: rest)).1, (digitRun r2).1) :: scanCC (digitRun r2).2 := by
  rw [scanCC.eq_def]
  simp only [hd, if_true]
  split
  · rename_i r2' heq'
    rw [heq'] at heq
    have : r2' = r2 := by simpa using heq
    subst this
    rw [if_neg (by simp [hne])]
  · rename_i hno
    exact absurd heq (hno _)

theorem scanCC_cons_colon_empty (c : Char) (rest r2 : List Char) (hd : c.isDigit = true)
    (heq : (digitRun (c :: rest)).2 = ':' :: r2) (hne : (digitRun r2).1.isEmpty = true) :
    scanCC (c :: rest) = scanCC rest := by
  rw [scanCC.eq_def]
  simp only [hd, if_true]
  split
  · rename_i r2' heq'
    rw [heq'] at heq
    have : r2' = r2 := by simpa using heq
    subst this
    rw [if_pos (by simpa using hne)]
  · rfl

theorem scanCC_cons_nocolon (c : Char) (rest : List Char) (hd : c.isDigit = true)
    (hno : ∀ r2, ¬ (digitRun (c :: rest)).2 = ':' :: r2) :
    scanCC (c :: rest) = scanCC rest := by
  rw [scanCC.eq_def]
  simp only [hd, if_true]

theorem scanCC_no_colon (l : List Char) (h : ':' ∉ l) : scanCC l = [] := by
  induction l using scanCC.induct with
  | case1 => simp [scanCC]
  | case2 c rest hd r2 heq hemp ih =>
    exfalso
    exact h (mem_of_digitRun_snd (by rw [heq]; exact List.mem_cons_self _ _))
  | case3 c rest hd r2 heq hemp ih =>
    exfalso
    exact h (mem_of_digitRun_snd (by rw [heq]; exact List.mem_cons_self _ _))
  | case4 c rest hd hno ih =>
    rw [scanCC_cons_nocolon c rest hd (fun r2 he => hno r2 he)]
    exact ih fun hm => h (List.mem_cons_of_mem _ hm)
  | case5 c rest hd ih =>
    rw [scanCC_skip_one c rest hd]
    exact ih fun hm => h (List.mem_cons_of_mem _ hm)

/-- Every capture pair the regex produces consists of two nonempty
    all-digit groups. -/
theorem scanCC_mem_digits {l : List Char} {p : List Char × List Char} (hp : p ∈ scanCC l) :
    p.1 ≠ [] ∧ p.1.all Char.isDigit = true ∧ p.2 ≠ [] ∧ p.2.all Char.isDigit = true := by
  induction l using scanCC.induct with
  | case1 => simp [scanCC] at hp
  | case2 c rest hd r2 heq hemp ih =>
    rw [scanCC_cons_colon_empty c rest r2 hd heq (by simpa using hemp)] at hp
    exact ih hp
  | case3 c rest hd r2 heq hemp ih =>
    rw [scanCC_cons_colon c rest r2 hd heq (by simpa using hemp)] at hp
    rcases List.mem_cons.mp hp with h1 | h1
    · subst h1
      refine ⟨?_, ?_, ?_, ?_⟩
      · have : (digitRun (c :: rest)).1 = c :: (digitRun rest).1 := by
          simp [digitRun, hd]
        simp [this]
      · exact digitRun_fst_all _
      · intro hnil
        exact hemp (by rw [show (digitRun r2).1 = [] from hnil]; rfl)
      · exact digitRun_fst_all _
    · exact ih h1
  | case4 c rest hd hno ih =>
    rw [scanCC_cons_nocolon c rest hd (fun r2 he => hno r2 he)] at hp
    exact ih hp
  | case5 c rest hd ih =>
    rw [scanCC_skip_one c rest hd] at hp
    exact ih hp

/-! ## Token/separator decompositions of a data string

`render s0 l` is the data string made of a leading separator `s0`
followed by the rendered `<digits>:<digits>` tokens of `l`, each
followed by its trailing separator. `sepOk` is the `[^0-9:]*` separator
class of the documented input format; `sepsOk` additionally requires
the separator after each token except the last to be nonempty (with an
empty separator two adjacent tokens fuse into one match, see the C2
counterexample). -/

def sepOk (s : List Char) : Bool := s.all fun c => !c.isDigit && !(c = ':')

def tokOk (p : List Char × List Char) : Bool :=
  !p.1.isEmpty && p.1.all Char.isDigit && !p.2.isEmpty && p.2.all Char.isDigit

def renderTok (p : List Char × List Char) : List Char := p.1 ++ ':' :: p.2

def render (s0 : List Char) (l : List ((List Char × List Char) × List Char)) : List Char :=
  s0 ++ (l.map fun x => renderTok x.1 ++ x.2).flatten

def sepsOk : List ((List Char × List Char) × List Char) → Bool
  | [] => true
  | x :: rest => sepOk x.2 && (rest.isEmpty || !x.2.isEmpty) && sepsOk rest

theorem sepOk_nodigit {s : List Char} (h : sepOk s = true) :
    s.all (fun c => !c.isDigit) = true := by
  simp only [sepOk, List.all_eq_true, Bool.and_eq_true] at h ⊢
  exact fun c hc => (h c hc).1

/-- The scan of a separated token string recovers exactly the tokens,
    left to right. -/
theorem scanCC_render (l : List ((List Char × List Char) × List Char)) (s0 : List Char)
    (h0 : sepOk s0 = true) (ht : ∀ x ∈ l, tokOk x.1 = true) (hs : sepsOk l = true) :
    scanCC (render s0 l) = l.map (fun x => x.1) := by
  induction l generalizing s0 with
  | nil =>
    show scanCC (s0 ++ []) = []
    rw [scanCC_skip_sep s0 [] (sepOk_nodigit h0)]
    simp [scanCC]
  | cons x rest ih =>
    have htx : tokOk x.1 = true := ht x (List.mem_cons_self _ _)
    simp only [tokOk, Bool.and_eq_true, Bool.not_eq_true', List.isEmpty_eq_false] at htx
    obtain ⟨⟨⟨hne1, hall1⟩, hne2⟩, hall2⟩ := htx
    simp only [sepsOk, Bool.and_eq_true] at hs
    obtain ⟨⟨hsep, hnemp⟩, hrest⟩ := hs
    have hflat : render s0 (x :: rest) =
        s0 ++ (x.1.1 ++ ':' :: (x.1.2 ++ (x.2 ++ (rest.map fun y => renderTok y.1 ++ y.2).flatten))) := by
      simp [render, renderTok, List.flatten_cons, List.append_assoc]
    rw [hflat, scanCC_skip_sep s0 _ (sepOk_nodigit h0)]
    have hhead : headNotDigit (x.2 ++ (rest.map fun y => renderTok y.1 ++ y.2).flatten) = true := by
      cases hx2 : x.2 with
      | nil =>
        have : rest = [] := by
          rw [hx2] at hnemp
          simp at hnemp
          exact List.isEmpty_iff.mp (by simpa using hnemp)
        subst this
        simp [headNotDigit]
      | cons c t =>
        have : c.isDigit = false := by
          have := hsep
          rw [hx2] at this
          simp only [sepOk, List.all_cons, Bool.and_eq_true, Bool.not_eq_true'] at this
          exact this.1.1
        simp [headNotDigit, this]
    rw [scanCC_match x.1.1 x.1.2 _ hne1 hall1 hne2 hall2 hhead]
    have : scanCC (x.2 ++ (rest.map fun y => renderTok y.1 ++ y.2).flatten) =
        rest.map (fun y => y.1) := by
      have := ih x.2 hsep (fun y hy => ht y (List.mem_cons_of_mem _ hy)) hrest
      simpa [render] using this
    rw [this]
    simp

/-! ## Lemmas about `parseIsize` and `str_to_u8` -/

theorem parseIsize_digits {s : List Char} (hne : s ≠ []) (hall : s.all Char.isDigit = true) :
    parseIsize s =
      if (digitsToNat s : Int) ≤ 2 ^ 63 - 1 then some ((digitsToNat s : Int)) else none := by
  cases s with
  | nil => exact absurd rfl hne
  | cons c t =>
    have hc : c.isDigit = true := by
      simp only [List.all_cons, Bool.and_eq_true] at hall
      exact hall.1
    have hplus : ¬ c = '+' := by
      intro e
      rw [e] at hc
      exact absurd hc (by decide)
    have hminus : ¬ c = '-' := by
      intro e
      rw [e] at hc
      exact absurd hc (by decide)
    simp only [parseIsize, if_neg hplus, if_neg hminus]
    unfold parseDigitsInt
    rw [if_neg (by simp), if_pos hall]
    have hnn : (0 : Int) ≤ (digitsToNat (c :: t) : Int) := Int.natCast_nonneg _
    have hlow : -(2 ^ 63 : Int) ≤ 1 * (digitsToNat (c :: t) : Int) := by
      have : -(2 ^ 63 : Int) ≤ 0 := by norm_num
      omega
    by_cases hle : (digitsToNat (c :: t) : Int) ≤ 2 ^ 63 - 1
    · rw [if_pos ⟨hlow, by omega⟩, if_pos hle]
      rw [one_mul]
    · rw [if_neg (by intro h; exact hle (by omega)), if_neg hle]

theorem str_to_u8_ok {s : List Char} (hne : s ≠ []) (hall : s.all Char.isDigit = true)
    (hle : digitsToNat s ≤ 255) : str_to_u8 s = Except.ok (digitsToNat s) := by
  have hint : (digitsToNat s : Int) ≤ 2 ^ 63 - 1 := by
    have : (digitsToNat s : Int) ≤ 255 := by exact_mod_cast hle
    omega
  unfold str_to_u8
  rw [parseIsize_digits hne hall, if_pos hint]
  dsimp only
  have hnn : (0 : Int) ≤ (digitsToNat s : Int) := Int.natCast_nonneg _
  have h255 : ¬ ((digitsToNat s : Int) < 0 ∨ 255 < (digitsToNat s : Int)) := by
    push_neg
    exact ⟨hnn, by exact_mod_cast hle⟩
  simp only [if_neg h255]
  simp

theorem str_to_u8_err {s : List Char} (hne : s ≠ []) (hall : s.all Char.isDigit = true)
    (hgt : 255 < digitsToNat s) : ∃ msg, str_to_u8 s = Except.error msg := by
  unfold str_to_u8
  rw [parseIsize_digits hne hall]
  by_cases hle : (digitsToNat s : Int) ≤ 2 ^ 63 - 1
  · rw [if_pos hle]
    dsimp only
    have : (digitsToNat s : Int) < 0 ∨ 255 < (digitsToNat s : Int) := by
      right
      exact_mod_cast hgt
    rw [if_pos this]
    exact ⟨_, rfl⟩
  · rw [if_neg hle]
    exact ⟨_, rfl⟩

theorem parseIsize_digits_nonneg {s : List Char} (hne : s ≠ [])
    (hall : s.all Char.isDigit = true) {i : Int} (h : parseIsize s = some i) : 0 ≤ i := by
  rw [parseIsize_digits hne hall] at h
  by_cases hle : (digitsToNat s : Int) ≤ 2 ^ 63 - 1
  · rw [if_pos hle] at h
    have : (digitsToNat s : Int) = i := by simpa using h
    rw [← this]
    exact Int.natCast_nonneg _
  · rw [if_neg hle] at h
    exact absurd h (by simp)

/-! ## Lemmas about the channel selection and the port loop -/

theorem selectChannel_ok_lt {c ch : Nat} (h : selectChannel c = Except.ok ch) : ch < 16 := by
  unfold selectChannel at h
  by_cases h0 : c = 0
  · rw [if_pos h0] at h
    have : 0 = ch := by simpa using h
    omega
  · rw [if_neg h0] at h
    by_cases h16 : c ≤ 16
    · rw [if_pos h16] at h
      have : c - 1 = ch := by simpa using h
      omega
    · rw [if_neg h16] at h
      exact absurd h (by simp)

theorem do_conn_gt16 {n : Nat} (h17 : 17 ≤ n) (pairs : List (Nat × Nat)) :
    do_conn (some n) pairs =
      Except.error ("Channel " ++ toString n ++ " exceeds maximum of 16") := by
  unfold do_conn selectChannel
  dsimp only
  rw [if_neg (by omega), if_neg (by omega)]
  rfl

theorem do_conn_some_eq {c : Nat} {pairs : List (Nat × Nat)} {msgs : List (List Nat)}
    (h : do_conn (some c) pairs = Except.ok msgs) :
    ∃ ch, selectChannel c = Except.ok ch ∧ ch < 16 ∧ msgs = do_channel pairs ch := by
  unfold do_conn at h
  dsimp only at h
  cases hs : selectChannel c with
  | error e =>
    rw [hs] at h
    exact absurd h (by simp [Except.map])
  | ok ch =>
    rw [hs] at h
    refine ⟨ch, rfl, selectChannel_ok_lt hs, ?_⟩
    have := h
    simp [Except.map] at this
    exact this.symm

theorem processPort_eq (opts : Opts) (pairs : List (Nat × Nat)) (p : Port) :
    (reachesConn opts p = true ∧
      processPort opts pairs p = (do_conn opts.channel pairs).map PortOutcome.sent)
    ∨ (reachesConn opts p = false ∧
      ∃ o, processPort opts pairs p = Except.ok o ∧ ∀ m, o ≠ PortOutcome.sent m) := by
  unfold processPort reachesConn
  cases p.name with
  | none =>
    right
    exact ⟨rfl, PortOutcome.nameFailed, rfl, fun m h => PortOutcome.noConfusion h⟩
  | some name =>
    dsimp only
    cases opts.port_filter with
    | none =>
      dsimp only
      by_cases hcon : p.connectOk
      · left
        simp [hcon]
      · right
        rw [if_neg hcon]
        exact ⟨by simp [hcon], PortOutcome.connectFailed, rfl,
          fun m h => PortOutcome.noConfusion h⟩
    | some filter =>
      dsimp only
      by_cases hf : hasSubstr filter name
      · by_cases hcon : p.connectOk
        · left
          simp [hf, hcon]
        · right
          rw [if_pos hf, if_neg hcon]
          exact ⟨by simp [hf, hcon], PortOutcome.connectFailed, rfl,
            fun m h => PortOutcome.noConfusion h⟩
      · right
        rw [if_neg hf]
        exact ⟨by simp [hf], PortOutcome.filtered, rfl, fun m h => PortOutcome.noConfusion h⟩


theorem processPort_no_sent {opts : Opts} {pairs : List (Nat × Nat)} {p : Port} {o : PortOutcome}
    {e : String} (hc : do_conn opts.channel pairs = Except.error e)
    (h : processPort opts pairs p = Except.ok o) : ∀ m, o ≠ PortOutcome.sent m := by
  rcases processPort_eq opts pairs p with ⟨hr, heq⟩ | ⟨hr, o2, heq, hns⟩
  · rw [heq, hc] at h
    exact absurd h (by simp [Except.map])
  · rw [heq] at h
    have : o2 = o := by simpa using h
    subst this
    exact hns

theorem processPort_reaches_error {opts : Opts} {pairs : List (Nat × Nat)} {p : Port}
    {e : String} (hr : reachesConn opts p = true)
    (hc : do_conn opts.channel pairs = Except.error e) :
    processPort opts pairs p = Except.error e := by
  rcases processPort_eq opts pairs p with ⟨_, heq⟩ | ⟨hf, _⟩
  · rw [heq, hc]
    rfl
  · rw [hr] at hf
    exact absurd hf (by simp)

theorem processPort_not_reaches_ok {opts : Opts} {pairs : List (Nat × Nat)} {p : Port}
    (hr : reachesConn opts p = false) :
    ∃ o, processPort opts pairs p = Except.ok o ∧ ∀ m, o ≠ PortOutcome.sent m := by
  rcases processPort_eq opts pairs p with ⟨ht, _⟩ | ⟨_, o, heq, hns⟩
  · rw [ht] at hr
    exact absurd hr (by simp)
  · exact ⟨o, heq, hns⟩

theorem runPorts_no_sent {opts : Opts} {pairs : List (Nat × Nat)} {e : String}
    (hc : do_conn opts.channel pairs = Except.error e) (ports : List Port) :
    ∀ o ∈ (runPorts opts pairs ports).1, ∀ m, o ≠ PortOutcome.sent m := by
  induction ports with
  | nil =>
    intro o ho
    simp [runPorts] at ho
  | cons p rest ih =>
    intro o ho m
    unfold runPorts at ho
    cases hp : processPort opts pairs p with
    | error e2 =>
      rw [hp] at ho
      simp at ho
    | ok o2 =>
      rw [hp] at ho
      dsimp only at ho
      rcases List.mem_cons.mp ho with h | h
      · subst h
        exact processPort_no_sent hc hp m
      · exact ih o h m

theorem runPorts_none_of_no_conn {opts : Opts} {pairs : List (Nat × Nat)} {ports : List Port}
    (h : ∀ p ∈ ports, reachesConn opts p = false) :
    (runPorts opts pairs ports).2 = none := by
  induction ports with
  | nil => rfl
  | cons p rest ih =>
    obtain ⟨o, ho, _⟩ := @processPort_not_reaches_ok opts pairs p
      (h p (List.mem_cons_self _ _))
    unfold runPorts
    rw [ho]
    exact ih fun q hq => h q (List.mem_cons_of_mem _ hq)

theorem runPorts_aborts {opts : Opts} {pairs : List (Nat × Nat)} {e : String}
    (hc : do_conn opts.channel pairs = Except.error e) (ports : List Port)
    (h : ∃ p ∈ ports, reachesConn opts p = true) :
    (runPorts opts pairs ports).2 = some e := by
  induction ports with
  | nil => simp at h
  | cons p rest ih =>
    by_cases hr : reachesConn opts p = true
    · unfold runPorts
      rw [processPort_reaches_error hr hc]
    · obtain ⟨o, ho, _⟩ := @processPort_not_reaches_ok opts pairs p
        (by simpa using hr)
      unfold runPorts
      rw [ho]
      dsimp only
      apply ih
      rcases h with ⟨q, hq, hrq⟩
      rcases List.mem_cons.mp hq with h1 | h1
      · subst h1
        exact absurd hrq hr
      · exact ⟨q, h1, hrq⟩

theorem do_channel_sends_fst (send : Nat → List Nat → Except String Unit) (channel : Nat)
    (pairs : List (Nat × Nat)) : ∀ i, (do_channel_sends send channel pairs i).1 =
      do_channel pairs channel := by
  induction pairs with
  | nil => intro i; rfl
  | cons p rest ih =>
    intro i
    unfold do_channel_sends
    cases send i (ccMessage channel p.1 p.2) with
    | ok u =>
      dsimp only
      rw [ih (i + 1)]
      rfl
    | error e =>
      dsimp only
      rw [ih (i + 1)]
      rfl

theorem do_channel_sends_log (send : Nat → List Nat → Except String Unit) (channel : Nat)
    (pairs : List (Nat × Nat)) : ∀ i j p e, pairs[j]? = some p →
      send (i + j) (ccMessage channel p.1 p.2) = Except.error e →
      ("Failed to send CC#" ++ toString p.1 ++ " value " ++ toString p.2 ++
       " on ch#" ++ toString (channel + 1) ++ ": " ++ e) ∈
        (do_channel_sends send channel pairs i).2 := by
  induction pairs with
  | nil =>
    intro i j p e hj
    simp at hj
  | cons q rest ih =>
    intro i j p e hj hs
    unfold do_channel_sends
    cases j with
    | zero =>
      have hq : q = p := by simpa using hj
      subst hq
      rw [show i + 0 = i from rfl] at hs
      rw [hs]
      exact List.mem_cons_self _ _
    | succ j' =>
      have hj' : rest[j']? = some p := by simpa using hj
      have hs' : send ((i + 1) + j') (ccMessage channel p.1 p.2) = Except.error e := by
        rw [show (i + 1) + j' = i + (j' + 1) by omega]
        exact hs
      have hmem := ih (i + 1) j' p e hj' hs'
      cases send i (ccMessage channel q.1 q.2) with
      | ok u => exact hmem
      | error e2 => exact List.mem_cons_of_mem _ hmem


/-! ## The claims -/

theorem runPorts_length_of_no_conn {opts : Opts} {pairs : List (Nat × Nat)} {ports : List Port}
    (h : ∀ p ∈ ports, reachesConn opts p = false) :
    (runPorts opts pairs ports).1.length = ports.length := by
  induction ports with
  | nil => rfl
  | cons p rest ih =>
    obtain ⟨o, ho, _⟩ := @processPort_not_reaches_ok opts pairs p
      (h p (List.mem_cons_self _ _))
    unfold runPorts
    rw [ho]
    dsimp only [List.length_cons]
    rw [ih fun q hq => h q (List.mem_cons_of_mem _ hq)]

/-- C1: every transmitted MIDI message is exactly 3 bytes, the first byte
    being `0xB0` OR-ed with the zero-based channel, the second the
    controller, the third the value, with the (controller, value) order
    of the parsed pair preserved; concretely, pair (70, 104) gives
    `[0xB0, 70, 104]` on channel 0 and `[0xB5, 70, 104]` on channel 5. -/
theorem C1_message_format :
    (∀ channelArg pairs msgs, do_conn channelArg pairs = Except.ok msgs →
      ∀ m ∈ msgs, m.length = 3 ∧ ∃ ch p, p ∈ pairs ∧ ch < 16 ∧
        m = [ Nat.lor CONTROL_CHANGE_PREFIX ch, p.1, p.2])
    ∧ do_channel [(70, 104)] 0 = [[0xB0, 70, 104]]
    ∧ do_channel [(70, 104)] 5 = [[0xB5, 70, 104]] := by
  refine ⟨?_, rfl, rfl⟩
  intro channelArg pairs msgs h m hm
  cases channelArg with
  | none =>
    have hmsgs : msgs = ((List.range 16).map (do_channel pairs)).flatten := by
      unfold do_conn at h
      dsimp only at h
      simpa using h.symm
    subst hmsgs
    rw [List.mem_flatten] at hm
    obtain ⟨l, hl, hml⟩ := hm
    rw [List.mem_map] at hl
    obtain ⟨ch, hch, rfl⟩ := hl
    rw [List.mem_range] at hch
    unfold do_channel at hml
    rw [List.mem_map] at hml
    obtain ⟨p, hp, rfl⟩ := hml
    exact ⟨rfl, ch, p, hp, hch, rfl⟩
  | some c =>
    obtain ⟨ch, hs, hlt, rfl⟩ := do_conn_some_eq h
    unfold do_channel at hm
    rw [List.mem_map] at hm
    obtain ⟨p, hp, rfl⟩ := hm
    exact ⟨rfl, ch, p, hp, hlt, rfl⟩

/-- Witness for C1 at channel argument 6 (zero-based channel 5) and the
    single pair (70, 104). -/
theorem C1_witness :
    ([181, 70, 104] : List Nat).length = 3 ∧ ∃ ch p, p ∈ [((70 : Nat), (104 : Nat))] ∧
      ch < 16 ∧ ([181, 70, 104] : List Nat) = [ Nat.lor CONTROL_CHANGE_PREFIX ch, p.1, p.2] :=
  C1_message_format.1 (some 6) [(70, 104)] [[181, 70, 104]] (by rfl) [181, 70, 104] (by simp)


theorem mapM_parsePair_ok (l : List ((List Char × List Char) × List Char))
    (ht : ∀ x ∈ l, tokOk x.1 = true)
    (hb : ∀ x ∈ l, digitsToNat x.1.1 ≤ 255 ∧ digitsToNat x.1.2 ≤ 255) :
    (l.map fun x => x.1).mapM parsePair =
      Except.ok (l.map fun x => (digitsToNat x.1.1, digitsToNat x.1.2)) := by
  induction l with
  | nil => rfl
  | cons x rest ih =>
    have htx := ht x (List.mem_cons_self _ _)
    simp only [tokOk, Bool.and_eq_true, Bool.not_eq_true', List.isEmpty_eq_false] at htx
    obtain ⟨⟨⟨hne1, hall1⟩, hne2⟩, hall2⟩ := htx
    have hbx := hb x (List.mem_cons_self _ _)
    have hpp : parsePair x.1 = Except.ok (digitsToNat x.1.1, digitsToNat x.1.2) := by
      unfold parsePair
      rw [str_to_u8_ok hne1 hall1 hbx.1, str_to_u8_ok hne2 hall2 hbx.2]
      rfl
    simp only [List.map_cons, List.mapM_cons, hpp,
      ih (fun y hy => ht y (List.mem_cons_of_mem _ hy))
         (fun y hy => hb y (List.mem_cons_of_mem _ hy))]
    rfl

/-- C2 counterexample: with the one-space separator removed (an empty
    separator between two tokens), the greedy second digit group of the
    first match swallows the first digit group of the second token, so
    the extracted sequence changes: `"70:104 74:124"` parses to
    `[(70,104),(74,124)]` but `"70:10474:124"` does not. -/
theorem C2_counterexample :
    parseData ("70:104 74:124".toList) = Except.ok [(70, 104), (74, 124)]
    ∧ parseData ("70:10474:124".toList) ≠ Except.ok [(70, 104), (74, 124)] := by
  have h1 : scanCC ("70:104 74:124".toList) =
      [(['7', '0'], ['1', '0', '4']), (['7', '4'], ['1', '2', '4'])] := by
    simp [scanCC, digitRun]
  have h2 : scanCC ("70:10474:124".toList) = [(['7', '0'], ['1', '0', '4', '7', '4'])] := by
    simp [scanCC, digitRun]
  constructor
  · unfold parseData
    rw [h1]
    rfl
  · unfold parseData
    rw [h2]
    exact fun h => Except.noConfusion h

/-- C2 (amended): the parser extracts the tokens in left-to-right order
    and the contents of the separators (one or more non-digit, non-colon
    characters between consecutive tokens; arbitrary, possibly empty,
    such text before the first and after the last token) never affect
    the resulting sequence; duplicates are kept since the result is a
    plain map over the token list. -/
theorem C2_tokens_in_order :
    (∀ l s0, sepOk s0 = true → (∀ x ∈ l, tokOk x.1 = true) → sepsOk l = true →
      scanCC (render s0 l) = l.map fun x => x.1)
    ∧ (∀ l s0, sepOk s0 = true → (∀ x ∈ l, tokOk x.1 = true) → sepsOk l = true →
      (∀ x ∈ l, digitsToNat x.1.1 ≤ 255 ∧ digitsToNat x.1.2 ≤ 255) →
      parseData (render s0 l) =
        Except.ok (l.map fun x => (digitsToNat x.1.1, digitsToNat x.1.2)))
    ∧ parseData ("70:104 74:124,122:0".toList) = Except.ok [(70, 104), (74, 124), (122, 0)] := by
  refine ⟨fun l s0 h0 ht hs => scanCC_render l s0 h0 ht hs, ?_, ?_⟩
  · intro l s0 h0 ht hs hb
    unfold parseData
    rw [scanCC_render l s0 h0 ht hs]
    exact mapM_parsePair_ok l ht hb
  · have h1 : scanCC ("70:104 74:124,122:0".toList) =
        [(['7', '0'], ['1', '0', '4']), (['7', '4'], ['1', '2', '4']),
         (['1', '2', '2'], ['0'])] := by
      simp [scanCC, digitRun]
    unfold parseData
    rw [h1]
    rfl

/-- Witness for C2's amended theorem: one token with a one-space
    trailing separator. -/
theorem C2_witness :
    scanCC (render [] [(( ['7'], ['4']), [' '])]) = [(['7'], ['4'])] :=
  C2_tokens_in_order.1 [((['7'], ['4']), [' '])] [] (by decide) (by decide) (by decide)

/-- C3: a digit token whose value is at most 255 converts to exactly that
    byte (values 128-255 included, e.g. 200); a token above 255 aborts
    with an error message; a parse abort yields no port outcomes at all,
    so it happens before any MIDI message is sent. -/
theorem C3_token_conversion :
    (∀ s : List Char, s ≠ [] → s.all Char.isDigit = true → digitsToNat s ≤ 255 →
      str_to_u8 s = Except.ok (digitsToNat s))
    ∧ str_to_u8 ("200".toList) = Except.ok 200
    ∧ (∀ s : List Char, s ≠ [] → s.all Char.isDigit = true → 255 < digitsToNat s →
      ∃ msg, str_to_u8 s = Except.error msg)
    ∧ (∀ opts ports e, parseData opts.data = Except.error e →
      runProgram opts ports = ([], some e)) := by
  refine ⟨fun s h1 h2 h3 => str_to_u8_ok h1 h2 h3, rfl,
    fun s h1 h2 h3 => str_to_u8_err h1 h2 h3, ?_⟩
  intro opts ports e h
  unfold runProgram
  rw [h]

/-- Witness for C3 at the token "254". -/
theorem C3_witness :
    str_to_u8 ("254".toList) = Except.ok (digitsToNat ("254".toList)) :=
  C3_token_conversion.1 ("254".toList) (by decide) (by decide) (by decide)

/-- C4: the channel selector maps argument 0 and argument 1 both to
    zero-based channel 0, and argument n with 2 ≤ n ≤ 16 to n - 1. -/
theorem C4_channel_mapping :
    selectChannel 0 = Except.ok 0 ∧ selectChannel 1 = Except.ok 0
    ∧ ∀ n, 2 ≤ n → n ≤ 16 → selectChannel n = Except.ok (n - 1) := by
  refine ⟨rfl, rfl, ?_⟩
  intro n h2 h16
  unfold selectChannel
  rw [if_neg (by omega), if_pos h16]

/-- Witness for C4 at channel argument 16. -/
theorem C4_witness : selectChannel 16 = Except.ok 15 :=
  C4_channel_mapping.2.2 16 (by decide) (by decide)


/-- C5: a channel argument above 16 is fatal: the channel conversion
    panics with the "exceeds maximum" message, no port outcome of any
    run with such a channel argument ever sends a message, and whenever
    some port reaches a successful connection the loop aborts with that
    message. -/
theorem C5_channel_exceeds_fatal :
    ∀ n, 17 ≤ n → n ≤ 255 →
      (∀ pairs, do_conn (some n) pairs =
        Except.error ("Channel " ++ toString n ++ " exceeds maximum of 16"))
      ∧ (∀ opts ports, opts.channel = some n →
          ∀ o ∈ (runProgram opts ports).1, ∀ m, o ≠ PortOutcome.sent m)
      ∧ (∀ opts pairs ports, opts.channel = some n →
          (∃ p ∈ ports, reachesConn opts p = true) →
          (runPorts opts pairs ports).2 =
            some ("Channel " ++ toString n ++ " exceeds maximum of 16")) := by
  intro n h17 h255
  refine ⟨fun pairs => do_conn_gt16 h17 pairs, ?_, ?_⟩
  · intro opts ports hch o ho m
    unfold runProgram at ho
    cases hpd : parseData opts.data with
    | error e =>
      rw [hpd] at ho
      simp at ho
    | ok pairs =>
      rw [hpd] at ho
      have hc : do_conn opts.channel pairs =
          Except.error ("Channel " ++ toString n ++ " exceeds maximum of 16") := by
        rw [hch]
        exact do_conn_gt16 h17 pairs
      exact runPorts_no_sent hc ports o ho m
  · intro opts pairs ports hch hex
    have hc : do_conn opts.channel pairs =
        Except.error ("Channel " ++ toString n ++ " exceeds maximum of 16") := by
      rw [hch]
      exact do_conn_gt16 h17 pairs
    exact runPorts_aborts hc ports hex

/-- Witness for C5 at channel argument 17. -/
theorem C5_witness :
    do_conn (some 17) [] =
      Except.error ("Channel " ++ toString 17 ++ " exceeds maximum of 16") :=
  (C5_channel_exceeds_fatal 17 (by decide) (by decide)).1 []

/-- C6: with no channel argument, the connection sends the full message
    list of every channel 0..15 in ascending channel order (channels
    `List.range 16`, pairwise distinct, with pairwise distinct status
    bytes), each channel's block listing the pairs in parsed order. -/
theorem C6_all_channels :
    ∀ pairs, do_conn none pairs =
      Except.ok (((List.range 16).map fun ch =>
        pairs.map fun p => [ Nat.lor CONTROL_CHANGE_PREFIX ch, p.1, p.2]).flatten)
    ∧ List.range 16 = [0, 1, 2, 3, 4, 5, 6, 7, 8, 9, 10, 11, 12, 13, 14, 15]
    ∧ (List.range 16).Nodup
    ∧ ((List.range 16).map fun ch => Nat.lor CONTROL_CHANGE_PREFIX ch).Nodup := by
  intro pairs
  exact ⟨rfl, by decide, by decide, by decide⟩

/-- Witness for C6 at the single pair (70, 104). -/
theorem C6_witness :
    do_conn none [(70, 104)] =
      Except.ok (((List.range 16).map fun ch =>
        [((70 : Nat), (104 : Nat))].map fun p =>
          [ Nat.lor CONTROL_CHANGE_PREFIX ch, p.1, p.2]).flatten) :=
  (C6_all_channels [(70, 104)]).1


/-- C7 (amended): a port whose name fails to resolve is skipped
    (`nameFailed`), a port whose resolved name does not contain a
    configured filter substring is skipped (`filtered`) - both receive
    zero messages since only a `sent` outcome transmits - and every
    other enumerated port WHOSE CONNECTION ATTEMPT SUCCEEDS (and with a
    channel argument that does not panic) receives the full selected
    message set. -/
theorem C7_port_filter :
    ∀ opts pairs p,
      (p.name = none → processPort opts pairs p = Except.ok PortOutcome.nameFailed)
      ∧ (∀ n f, p.name = some n → opts.port_filter = some f → hasSubstr f n = false →
          processPort opts pairs p = Except.ok PortOutcome.filtered)
      ∧ (∀ n msgs, p.name = some n →
          (opts.port_filter = none ∨ ∃ f, opts.port_filter = some f ∧ hasSubstr f n = true) →
          p.connectOk = true → do_conn opts.channel pairs = Except.ok msgs →
          processPort opts pairs p = Except.ok (PortOutcome.sent msgs)) := by
  intro opts pairs p
  refine ⟨?_, ?_, ?_⟩
  · intro hn
    unfold processPort
    rw [hn]
  · intro n f hn hf hsub
    unfold processPort
    rw [hn, hf]
    dsimp only
    rw [if_neg (by simp [hsub])]
  · intro n msgs hn hfil hcon hdc
    unfold processPort
    rw [hn]
    rcases hfil with h | ⟨f, hf, hsub⟩
    · rw [h]
      dsimp only
      rw [if_pos hcon, hdc]
      rfl
    · rw [hf]
      dsimp only
      rw [if_pos hsub, if_pos hcon, hdc]
      rfl

/-- C7 counterexample: an enumerated port that is NOT skipped (name
    resolves, no filter configured) but whose connection attempt fails
    receives zero messages, not the full selected message set
    `[[176, 70, 104]]`. -/
theorem C7_counterexample :
    processPort ⟨none, some 1, false, "70:104".toList⟩ [(70, 104)] ⟨some ("A".toList), false⟩
      = Except.ok PortOutcome.connectFailed
    ∧ do_conn (some 1) [(70, 104)] = Except.ok [[176, 70, 104]]
    ∧ PortOutcome.connectFailed ≠ PortOutcome.sent [[176, 70, 104]] := by
  refine ⟨rfl, rfl, ?_⟩
  intro h
  exact PortOutcome.noConfusion h

/-- Witness for C7's amended theorem: filter "Mid" matches port name
    "AMidi" and the connection succeeds, so the port gets the selected
    set. -/
theorem C7_witness :
    processPort ⟨some ("Mid".toList), some 1, false, []⟩ [] ⟨some ("AMidi".toList), true⟩
      = Except.ok (PortOutcome.sent []) :=
  (C7_port_filter ⟨some ("Mid".toList), some 1, false, []⟩ [] ⟨some ("AMidi".toList), true⟩).2.2
    ("AMidi".toList) [] rfl (Or.inr ⟨"Mid".toList, rfl, by decide⟩) rfl (by rfl)


/-- C8: a per-message send failure is non-fatal: the attempted message
    list is the full `do_channel` list no matter which sends fail (so
    every later message is still attempted, and the result carries no
    process abort), it is identical for any two transports, and each
    failed send is logged with controller, value, human 1-based channel
    and the underlying error. -/
theorem C8_send_failure_nonfatal :
    ∀ send pairs channel,
      (do_channel_sends send channel pairs 0).1 = do_channel pairs channel
      ∧ (∀ send2, (do_channel_sends send channel pairs 0).1 =
          (do_channel_sends send2 channel pairs 0).1)
      ∧ (∀ j p e, pairs[j]? = some p →
          send j (ccMessage channel p.1 p.2) = Except.error e →
          ("Failed to send CC#" ++ toString p.1 ++ " value " ++ toString p.2 ++
           " on ch#" ++ toString (channel + 1) ++ ": " ++ e) ∈
            (do_channel_sends send channel pairs 0).2) := by
  intro send pairs channel
  refine ⟨do_channel_sends_fst send channel pairs 0, ?_, ?_⟩
  · intro send2
    rw [do_channel_sends_fst, do_channel_sends_fst]
  · intro j p e hj hs
    exact do_channel_sends_log send channel pairs 0 j p e hj (by simpa using hs)

/-- Witness for C8: a transport failing the first send still attempts
    both messages. -/
theorem C8_witness :
    (do_channel_sends (fun i _ => if i = 0 then Except.error "boom" else Except.ok ()) 0
      [(70, 104), (74, 124)] 0).1 = do_channel [(70, 104), (74, 124)] 0 :=
  (C8_send_failure_nonfatal (fun i _ => if i = 0 then Except.error "boom" else Except.ok ())
    [(70, 104), (74, 124)] 0).1

/-- C9: the channel-range check lives inside the per-connection handler,
    so with an invalid channel argument (17-255) but no successful port
    connection (empty port list, skipped ports, or failed connects) the
    run finishes every iteration with no abort: the error slot is
    `none` and there is one outcome per enumerated port. -/
theorem C9_no_connection_no_abort :
    ∀ opts ports n pairs, opts.channel = some n → 17 ≤ n → n ≤ 255 →
      parseData opts.data = Except.ok pairs →
      (∀ p ∈ ports, reachesConn opts p = false) →
      (runProgram opts ports).2 = none ∧
      (runProgram opts ports).1.length = ports.length := by
  intro opts ports n pairs hch h17 h255 hpd h
  unfold runProgram
  rw [hpd]
  exact ⟨runPorts_none_of_no_conn h, runPorts_length_of_no_conn h⟩

/-- Witness for C9: channel argument 17, one port whose name fails to
    resolve; the run terminates normally. -/
theorem C9_witness :
    (runProgram ⟨none, some 17, false, "70:104".toList⟩ [⟨none, true⟩]).2 = none ∧
    (runProgram ⟨none, some 17, false, "70:104".toList⟩ [⟨none, true⟩]).1.length = 1 :=
  C9_no_connection_no_abort ⟨none, some 17, false, "70:104".toList⟩ [⟨none, true⟩] 17
    [(70, 104)] rfl (by decide) (by decide)
    (by show parseData ("70:104".toList) = _
        unfold parseData
        rw [show scanCC ("70:104".toList) = [(['7', '0'], ['1', '0', '4'])] from by
          simp [scanCC, digitRun]]
        rfl)
    (by decide)

/-- C10: every capture group handed to the token converter is a nonempty
    all-digit string, so whenever it parses it parses to a non-negative
    integer: the negative half of the range check can never fire, and
    the out-of-range condition is equivalent to being above 255. -/
theorem C10_negative_branch_unreachable :
    ∀ s p, p ∈ scanCC s →
      (∀ i, parseIsize p.1 = some i → 0 ≤ i ∧ ((i < 0 ∨ 255 < i) ↔ 255 < i))
      ∧ (∀ i, parseIsize p.2 = some i → 0 ≤ i ∧ ((i < 0 ∨ 255 < i) ↔ 255 < i)) := by
  intro s p hp
  obtain ⟨h1, h2, h3, h4⟩ := scanCC_mem_digits hp
  constructor
  · intro i hi
    have hnn := parseIsize_digits_nonneg h1 h2 hi
    exact ⟨hnn, by omega⟩
  · intro i hi
    have hnn := parseIsize_digits_nonneg h3 h4 hi
    exact ⟨hnn, by omega⟩

/-- Witness for C10 at the data string "7:4" and its only capture. -/
theorem C10_witness :
    (0 : Int) ≤ 7 ∧ (((7 : Int) < 0 ∨ 255 < (7 : Int)) ↔ 255 < (7 : Int)) :=
  (C10_negative_branch_unreachable ("7:4".toList) (['7'], ['4'])
    (by rw [show scanCC ("7:4".toList) = [(['7'], ['4'])] from by simp [scanCC, digitRun]]
        simp)).1 7 (by rfl)


end CCEmitter
